import Mathlib

/-!
Shallow embedding of the mytunnel QUIC-tunnel proxy (Rust) and proofs about
its data plane.  Byte values are `Nat` below 256; the Rust code's wrapping
64-bit machine integers (`u64` / `usize`) are `Nat` taken modulo `2 ^ 64` at
every operation where overflow can occur.  Definitions mirror the source
files named in their doc comments.
-/

/-- Modulus of 64-bit machine integers (`u64` / `usize`). -/
def U64 : Nat := 2 ^ 64

/-- The process-wide counter block of `src/metrics/counters.rs`
(`struct Metrics`); each `AtomicU64` is a `Nat` below `2 ^ 64`, and
`fetch_add` / `fetch_sub` wrap modulo `2 ^ 64`. -/
structure Metrics where
  connections_total : Nat
  connections_active : Nat
  connections_failed : Nat
  bytes_received : Nat
  bytes_sent : Nat
  packets_received : Nat
  packets_sent : Nat
  streams_opened : Nat
  streams_closed : Nat
  datagrams_received : Nat
  datagrams_sent : Nat
  errors_total : Nat
  timeouts_total : Nat
  buffer_pool_acquires : Nat
  buffer_pool_releases : Nat
  buffer_pool_misses : Nat
deriving Repr, DecidableEq

/-- `Metrics::new` — all counters start at zero. -/
def Metrics.new : Metrics :=
  ⟨0, 0, 0, 0, 0, 0, 0, 0, 0, 0, 0, 0, 0, 0, 0, 0⟩

/-- `Metrics::connection_opened`. -/
def Metrics.connection_opened (m : Metrics) : Metrics :=
  { m with connections_total := (m.connections_total + 1) % U64,
           connections_active := (m.connections_active + 1) % U64 }

/-- `Metrics::connection_closed` (a wrapping `fetch_sub`). -/
def Metrics.connection_closed (m : Metrics) : Metrics :=
  { m with connections_active := (m.connections_active + (U64 - 1)) % U64 }

/-- `Metrics::connection_failed`. -/
def Metrics.connection_failed (m : Metrics) : Metrics :=
  { m with connections_failed := (m.connections_failed + 1) % U64 }

/-- `Metrics::datagram_rx`. -/
def Metrics.datagram_rx (m : Metrics) : Metrics :=
  { m with datagrams_received := (m.datagrams_received + 1) % U64 }

/-- `Metrics::datagram_tx`. -/
def Metrics.datagram_tx (m : Metrics) : Metrics :=
  { m with datagrams_sent := (m.datagrams_sent + 1) % U64 }

/-- `Metrics::stream_opened`. -/
def Metrics.stream_opened (m : Metrics) : Metrics :=
  { m with streams_opened := (m.streams_opened + 1) % U64 }

/-- `Metrics::stream_closed`. -/
def Metrics.stream_closed (m : Metrics) : Metrics :=
  { m with streams_closed := (m.streams_closed + 1) % U64 }

/-- `Metrics::error`. -/
def Metrics.error (m : Metrics) : Metrics :=
  { m with errors_total := (m.errors_total + 1) % U64 }

/-- `Metrics::timeout`. -/
def Metrics.timeout (m : Metrics) : Metrics :=
  { m with timeouts_total := (m.timeouts_total + 1) % U64 }

/-- Success condition of Rust's `String::from_utf8` on a byte sequence:
well-formed UTF-8 with no overlong forms, no surrogates and no code points
above `U+10FFFF`. -/
def utf8Valid : List Nat → Bool
  | [] => true
  | b :: rest =>
    if b ≤ 0x7F then utf8Valid rest
    else if 0xC2 ≤ b ∧ b ≤ 0xDF then
      match rest with
      | c1 :: r => (0x80 ≤ c1 ∧ c1 ≤ 0xBF : Bool) && utf8Valid r
      | [] => false
    else if b = 0xE0 then
      match rest with
      | c1 :: c2 :: r =>
        (0xA0 ≤ c1 ∧ c1 ≤ 0xBF : Bool) && (0x80 ≤ c2 ∧ c2 ≤ 0xBF : Bool) &&
          utf8Valid r
      | _ => false
    else if (0xE1 ≤ b ∧ b ≤ 0xEC) ∨ (0xEE ≤ b ∧ b ≤ 0xEF) then
      match rest with
      | c1 :: c2 :: r =>
        (0x80 ≤ c1 ∧ c1 ≤ 0xBF : Bool) && (0x80 ≤ c2 ∧ c2 ≤ 0xBF : Bool) &&
          utf8Valid r
      | _ => false
    else if b = 0xED then
      match rest with
      | c1 :: c2 :: r =>
        (0x80 ≤ c1 ∧ c1 ≤ 0x9F : Bool) && (0x80 ≤ c2 ∧ c2 ≤ 0xBF : Bool) &&
          utf8Valid r
      | _ => false
    else if b = 0xF0 then
      match rest with
      | c1 :: c2 :: c3 :: r =>
        (0x90 ≤ c1 ∧ c1 ≤ 0xBF : Bool) && (0x80 ≤ c2 ∧ c2 ≤ 0xBF : Bool) &&
          (0x80 ≤ c3 ∧ c3 ≤ 0xBF : Bool) && utf8Valid r
      | _ => false
    else if 0xF1 ≤ b ∧ b ≤ 0xF3 then
      match rest with
      | c1 :: c2 :: c3 :: r =>
        (0x80 ≤ c1 ∧ c1 ≤ 0xBF : Bool) && (0x80 ≤ c2 ∧ c2 ≤ 0xBF : Bool) &&
          (0x80 ≤ c3 ∧ c3 ≤ 0xBF : Bool) && utf8Valid r
      | _ => false
    else if b = 0xF4 then
      match rest with
      | c1 :: c2 :: c3 :: r =>
        (0x80 ≤ c1 ∧ c1 ≤ 0x8F : Bool) && (0x80 ≤ c2 ∧ c2 ≤ 0xBF : Bool) &&
          (0x80 ≤ c3 ∧ c3 ≤ 0xBF : Bool) && utf8Valid r
      | _ => false
    else false

/-- Big-endian byte pair of a 16-bit value (`BufMut::put_u16`). -/
def u16be (port : Nat) : List Nat := [port / 256 % 256, port % 256]

/-- `encode_udp_packet` from `mytunnel-client/src/protocol.rs`: the wire
layout `[port(2 BE)][hostlen(1)][host(N)][payload]`; fails when the host
exceeds 255 bytes.  The host is its UTF-8 byte sequence. -/
def encode_udp_packet (host : List Nat) (port : Nat) (payload : List Nat) :
    Option (List Nat) :=
  if host.length > 255 then none
  else some (u16be port ++ (host.length :: host) ++ payload)

/-- Decoded form of a UDP relay datagram (`struct UdpPacket` in
`mytunnel-client/src/protocol.rs`). -/
structure UdpPacket where
  host : List Nat
  port : Nat
  payload : List Nat
deriving Repr, DecidableEq

/-- `decode_udp_packet` from `mytunnel-client/src/protocol.rs`: rejects
inputs shorter than 4 bytes, reads `port` (2 bytes BE) and `host_len`,
rejects truncated hosts, and fails when the host bytes are not valid UTF-8
(`String::from_utf8`). -/
def decode_udp_packet : List Nat → Option UdpPacket
  | b0 :: b1 :: b2 :: b3 :: tl =>
    let rest := b3 :: tl
    if rest.length < b2 then none
    else if utf8Valid (rest.take b2) then
      some ⟨rest.take b2, b0 * 256 + b1, rest.drop b2⟩
    else none
  | _ => none

/-- `enum RouteDecision` from `src/router/policy.rs`. -/
inductive RouteDecision where
  | Allow (egress_hint : Option String)
  | Deny (reason : String)
  | RateLimited
deriving Repr, DecidableEq

/-- `enum RequestType` from `src/router/dispatcher.rs`. -/
inductive RequestType where
  | TcpConnect
  | UdpRelay
  | DnsQuery
deriving Repr, DecidableEq

/-- `struct Request` from `src/router/dispatcher.rs`; the source address is
kept abstract as its textual form. -/
structure Request where
  request_type : RequestType
  target_host : String
  target_port : Nat
  source_addr : String
deriving Repr, DecidableEq

/-- `struct RoutingPolicy` from `src/router/policy.rs`. -/
structure RoutingPolicy where
  default_allow : Bool
  blocked_hosts : List String
  blocked_ports : List Nat
  allowed_ports : List Nat
deriving Repr, DecidableEq

/-- `RoutingPolicy::decide` from `src/router/policy.rs`, translated
check-for-check: blocked hosts, then blocked ports, then the allowed-port
whitelist, then the default. -/
def RoutingPolicy.decide (p : RoutingPolicy) (r : Request) : RouteDecision :=
  if p.blocked_hosts.any (fun h => h == r.target_host) then
    .Deny ("Host is blocked")
  else if p.blocked_ports.contains r.target_port then
    .Deny ("Port is blocked")
  else if !p.allowed_ports.isEmpty && !p.allowed_ports.contains r.target_port then
    .Deny ("Port not in allowed list")
  else if p.default_allow then
    .Allow none
  else
    .Deny ("Default deny policy")

/-- The routing decision as the spec words it (§4.7): (1) blocked host
exact match → Deny; (2) blocked port → Deny; (3) allowed-port whitelist
non-empty and port not present → Deny; (4) `default_allow` → Allow, else
Deny.  Written independently of `RoutingPolicy.decide` for the refinement
claim C8. -/
def decideSpec (p : RoutingPolicy) (r : Request) : RouteDecision :=
  if r.target_host ∈ p.blocked_hosts then .Deny ("Host is blocked")
  else if r.target_port ∈ p.blocked_ports then .Deny ("Port is blocked")
  else if p.allowed_ports ≠ [] ∧ r.target_port ∉ p.allowed_ports then
    .Deny ("Port not in allowed list")
  else if p.default_allow = true then .Allow none
  else .Deny ("Default deny policy")

/-- Trailing-zero scan used below: first bit index at or after `i` (within
`fuel` more positions) that is set in `w`; returns `i + fuel` when none is. -/
def ctzAux (w : Nat) : Nat → Nat → Nat
  | i, 0 => i
  | i, fuel + 1 => if w.testBit i then i else ctzAux w (i + 1) fuel

/-- `u64::trailing_zeros`: index of the least set bit of a 64-bit word, or
64 when the word is zero. -/
def ctz64 (w : Nat) : Nat := ctzAux w 0 64

/-- `struct ConnectionSlab` from `src/pool/slab.rs`: slot array, free
bitset (one bit per slot, 1 = free, 64 slots per word), allocation counter
and capacity.  Slot contents are behind per-slot mutexes in the source; in
this sequential model a slot is just an `Option`. -/
structure ConnectionSlab (T : Type) where
  slots : List (Option T)
  free_bitset : List Nat
  allocated : Nat
  capacity : Nat

/-- Number of 64-bit bitset words for a capacity (`(capacity + 63) / 64`). -/
def numWords (capacity : Nat) : Nat := (capacity + 63) / 64

/-- Initial value of bitset word `i` in `ConnectionSlab::new`: bits of
slots beyond `capacity` start (and stay) 0. -/
def initWord (capacity i : Nat) : Nat :=
  if i = numWords capacity - 1 ∧ capacity % 64 ≠ 0 then 2 ^ (capacity % 64) - 1
  else if i * 64 < capacity then 2 ^ 64 - 1
  else 0

/-- `ConnectionSlab::new`. -/
def ConnectionSlab.new (T : Type) (capacity : Nat) : ConnectionSlab T :=
  { slots := List.replicate (numWords capacity * 64) none
    free_bitset := (List.range (numWords capacity)).map (initWord capacity)
    allocated := 0
    capacity := capacity }

/-- Word scan of `ConnectionSlab::insert` over the enumerated bitset words
(`self.free_bitset.iter().enumerate()`).  In this sequential model the CAS
always succeeds, so the retry loop of the source collapses to one claim per
examined word. -/
def insertScan {T : Type} (s : ConnectionSlab T) (value : T) :
    List (Nat × Nat) → Option (Nat × ConnectionSlab T)
  | [] => none
  | (word_idx, current) :: rest =>
    if current = 0 then insertScan s value rest
    else
      let bit_idx := ctz64 current
      let slot_idx := word_idx * 64 + bit_idx
      if s.capacity ≤ slot_idx then insertScan s value rest
      else
        let mask := 1 <<< bit_idx
        let new_value := current &&& ((2 ^ 64 - 1) ^^^ mask)
        some (slot_idx,
          { s with free_bitset := s.free_bitset.set word_idx new_value,
                   slots := s.slots.set slot_idx (some value),
                   allocated := (s.allocated + 1) % U64 })

/-- `ConnectionSlab::insert`: scan the bitset for a free slot; claim it,
store the value, bump `allocated`, return the slot index (the
`SlabHandle`); `none` when the slab is full. -/
def ConnectionSlab.insert {T : Type} (s : ConnectionSlab T) (value : T) :
    Option (Nat × ConnectionSlab T) :=
  insertScan s value s.free_bitset.enum

/-- `ConnectionSlab::remove`: take the value out of the slot, set the
corresponding bit free again, decrement `allocated` (a wrapping
`fetch_sub`). -/
def ConnectionSlab.remove {T : Type} (s : ConnectionSlab T) (handle : Nat) :
    Option T × ConnectionSlab T :=
  if s.capacity ≤ handle then (none, s)
  else
    match s.slots.getD handle none with
    | none => (none, s)
    | some value =>
      let word_idx := handle / 64
      let bit_idx := handle % 64
      let mask := 1 <<< bit_idx
      (some value,
        { s with slots := s.slots.set handle none,
                 free_bitset := s.free_bitset.set word_idx
                   (s.free_bitset.getD word_idx 0 ||| mask),
                 allocated := (s.allocated + (U64 - 1)) % U64 })

/-- `ConnectionSlab::get`: the value is exposed only when the index is
below capacity and the slot is occupied. -/
def ConnectionSlab.get {T : Type} (s : ConnectionSlab T) (handle : Nat) :
    Option T :=
  if s.capacity ≤ handle then none else s.slots.getD handle none

/-- One external operation on a slab, for interleaving-free sequences of
`insert` and `remove` calls. -/
inductive SlabOp (T : Type) where
  | ins (value : T)
  | rem (handle : Nat)

/-- State after one slab operation (results are discarded). -/
def ConnectionSlab.applyOp {T : Type} (s : ConnectionSlab T) :
    SlabOp T → ConnectionSlab T
  | .ins v =>
    match s.insert v with
    | some r => r.2
    | none => s
  | .rem h => (s.remove h).2

/-- State after a sequence of slab operations. -/
def ConnectionSlab.runOps {T : Type} (s : ConnectionSlab T) :
    List (SlabOp T) → ConnectionSlab T
  | [] => s
  | op :: ops => (s.applyOp op).runOps ops

/-- Bit of the free bitset governing slot `i` (true = free). -/
def ConnectionSlab.bitAt {T : Type} (s : ConnectionSlab T) (i : Nat) : Bool :=
  (s.free_bitset.getD (i / 64) 0).testBit (i % 64)

/-- Number of occupied slots with index below `capacity`. -/
def occupiedCount {T : Type} (s : ConnectionSlab T) : Nat :=
  (List.range s.capacity).countP (fun i => (s.slots.getD i none).isSome)

/-- Structural invariant of the slab model, established by
`ConnectionSlab.new` and preserved by `insert` and `remove`. -/
structure SlabInv {T : Type} (s : ConnectionSlab T) : Prop where
  words_len : s.free_bitset.length = numWords s.capacity
  slots_len : s.slots.length = numWords s.capacity * 64
  words_lt : ∀ w ∈ s.free_bitset, w < 2 ^ 64
  beyond_zero : ∀ i, s.capacity ≤ i → s.bitAt i = false
  beyond_empty : ∀ i, s.capacity ≤ i → s.slots.getD i none = none
  free_iff_empty : ∀ i, i < s.capacity →
    (s.bitAt i = true ↔ s.slots.getD i none = none)
  alloc_eq : s.allocated = occupiedCount s

/-- `enum BufferSize` from `src/pool/buffer.rs`. -/
inductive BufferSize where
  | Small
  | Medium
  | Large
deriving Repr, DecidableEq

/-- `BufferSize::as_usize`. -/
def BufferSize.as_usize : BufferSize → Nat
  | .Small => 4096
  | .Medium => 16384
  | .Large => 65536

/-- One tier of `BufferPoolInner` from `src/pool/buffer.rs`: the bounded
`ArrayQueue` (modelled by its length and fixed capacity — the queued boxes
are indistinguishable), the `allocated` and `in_use` counters, and two
ghost counters of live buffers: those popped from the queue and those
allocated outside the pool by `acquire_or_alloc`'s fallback. -/
structure TierState where
  queue_len : Nat
  queue_cap : Nat
  allocated : Nat
  in_use : Nat
  live_from_pool : Nat
  live_overflow : Nat
deriving Repr, DecidableEq

/-- `struct BufferPoolInner`: one tier per buffer size. -/
structure BufferPoolInner where
  small : TierState
  medium : TierState
  large : TierState
deriving Repr, DecidableEq

/-- Tier selection (`match size` in the source). -/
def BufferPoolInner.tier (p : BufferPoolInner) : BufferSize → TierState
  | .Small => p.small
  | .Medium => p.medium
  | .Large => p.large

/-- Write back the selected tier. -/
def BufferPoolInner.setTier (p : BufferPoolInner) :
    BufferSize → TierState → BufferPoolInner
  | .Small, t => { p with small := t }
  | .Medium, t => { p with medium := t }
  | .Large, t => { p with large := t }

/-- `BufferPool::new`: each tier pre-allocates `count` buffers, so its
queue holds `count` boxes, `allocated = count`, `in_use = 0`. -/
def BufferPool.new (small_count medium_count large_count : Nat) :
    BufferPoolInner :=
  { small := ⟨small_count, small_count, small_count, 0, 0, 0⟩
    medium := ⟨medium_count, medium_count, medium_count, 0, 0, 0⟩
    large := ⟨large_count, large_count, large_count, 0, 0, 0⟩ }

/-- `BufferPool::acquire` on the selected tier: pop one box off the queue
and bump `in_use` (wrapping `fetch_add`); `none` when drained. -/
def BufferPool.acquire (p : BufferPoolInner) (size : BufferSize) :
    Option BufferPoolInner :=
  let t := p.tier size
  if t.queue_len = 0 then none
  else some (p.setTier size
    { t with queue_len := t.queue_len - 1,
             in_use := (t.in_use + 1) % U64,
             live_from_pool := t.live_from_pool + 1 })

/-- `BufferPool::acquire_or_alloc`: `acquire`, falling back to a fresh
allocation outside the pool; the fallback touches no counter, only the
ghost count of live overflow buffers. -/
def BufferPool.acquire_or_alloc (p : BufferPoolInner) (size : BufferSize) :
    BufferPoolInner :=
  match BufferPool.acquire p size with
  | some p' => p'
  | none =>
    let t := p.tier size
    p.setTier size { t with live_overflow := t.live_overflow + 1 }

/-- `BufferPoolInner::return_buffer` (the `Buffer::drop` path) on one tier:
decrement `in_use` (wrapping `fetch_sub`) and push the box back; the push
silently fails when the bounded queue is full (`let _ = ...push(data)`). -/
def TierState.return_buffer (t : TierState) : TierState :=
  { t with in_use := (t.in_use + (U64 - 1)) % U64,
           queue_len :=
             if t.queue_len < t.queue_cap then t.queue_len + 1
             else t.queue_len }

/-- One external event on the buffer pool: an acquisition or the `Drop` of
a live buffer (the dropped buffer's provenance selects which ghost count
falls). -/
inductive PoolOp where
  | acq (size : BufferSize)
  | acqOrAlloc (size : BufferSize)
  | dropPool (size : BufferSize)
  | dropOverflow (size : BufferSize)
deriving Repr, DecidableEq

/-- State after one buffer-pool event; a `Drop` of a buffer that does not
exist is no (possible) event and leaves the state unchanged. -/
def BufferPoolInner.applyOp (p : BufferPoolInner) : PoolOp → BufferPoolInner
  | .acq size =>
    match BufferPool.acquire p size with
    | some p' => p'
    | none => p
  | .acqOrAlloc size => BufferPool.acquire_or_alloc p size
  | .dropPool size =>
    let t := p.tier size
    if t.live_from_pool = 0 then p
    else p.setTier size
      { t.return_buffer with live_from_pool := t.live_from_pool - 1 }
  | .dropOverflow size =>
    let t := p.tier size
    if t.live_overflow = 0 then p
    else p.setTier size
      { t.return_buffer with live_overflow := t.live_overflow - 1 }

/-- State after a sequence of buffer-pool events. -/
def BufferPoolInner.runOps (p : BufferPoolInner) : List PoolOp → BufferPoolInner
  | [] => p
  | op :: ops => (p.applyOp op).runOps ops

/-- The per-tier pool equation claimed by the spec (§8):
`in_use + free_queue_len + outstanding_overflow == allocated`. -/
def TierState.poolEquation (t : TierState) : Prop :=
  t.in_use + t.queue_len + t.live_overflow = t.allocated

instance (t : TierState) : Decidable t.poolEquation := by
  unfold TierState.poolEquation; infer_instance

/-- `struct ConnectionState` of `src/connection/state.rs`, restricted to
the fields the manager claims need (`id`, `client_addr`). -/
structure ConnState where
  id : Nat
  client_addr : String

/-- `struct ConnectionManager` from `src/connection/manager.rs`: the slab,
the `ConnectionId → SlabHandle` map (an association list standing in for
the `DashMap`) and the `next_id` generator (`AtomicU64`, starting at 1). -/
structure ConnectionManager where
  connections : ConnectionSlab ConnState
  id_to_handle : List (Nat × Nat)
  next_id : Nat

/-- `ConnectionManager::new` with `max_connections`. -/
def ConnectionManager.new (max_connections : Nat) : ConnectionManager :=
  { connections := ConnectionSlab.new ConnState max_connections
    id_to_handle := []
    next_id := 1 }

/-- `ConnectionManager::register`: mint the next id (wrapping `fetch_add`),
build the state, insert into the slab — `none` when the slab is full (the
minted id is still consumed) — then record the handle in the map and bump
`connection_opened`. -/
def ConnectionManager.register (mgr : ConnectionManager) (client_addr : String)
    (m : Metrics) : Option Nat × ConnectionManager × Metrics :=
  let id := mgr.next_id
  let mgr1 := { mgr with next_id := (mgr.next_id + 1) % U64 }
  match mgr1.connections.insert ⟨id, client_addr⟩ with
  | none => (none, mgr1, m)
  | some (handle, slab') =>
    (some id,
      { mgr1 with connections := slab',
                  id_to_handle := (id, handle) :: mgr1.id_to_handle },
      m.connection_opened)

/-- `ConnectionManager::unregister`: remove the map entry and, if the
handle still held a state, free the slab slot and bump
`connection_closed`. -/
def ConnectionManager.unregister (mgr : ConnectionManager) (id : Nat)
    (m : Metrics) : ConnectionManager × Metrics :=
  match mgr.id_to_handle.lookup id with
  | none => (mgr, m)
  | some handle =>
    match mgr.connections.remove handle with
    | (some _, slab') =>
      ({ mgr with connections := slab',
                  id_to_handle :=
                    mgr.id_to_handle.filter (fun e => e.1 != id) },
        m.connection_closed)
    | (none, slab') =>
      ({ mgr with connections := slab',
                  id_to_handle :=
                    mgr.id_to_handle.filter (fun e => e.1 != id) },
        m)

/-- One external call on the connection manager. -/
inductive MgrOp where
  | register (client_addr : String)
  | unregister (id : Nat)

/-- State after one manager call (results are discarded). -/
def ConnectionManager.applyOp (st : ConnectionManager × Metrics) :
    MgrOp → ConnectionManager × Metrics
  | .register addr =>
    let r := st.1.register addr st.2
    (r.2.1, r.2.2)
  | .unregister id => st.1.unregister id st.2

/-- State after a sequence of manager calls. -/
def ConnectionManager.runOps (st : ConnectionManager × Metrics) :
    List MgrOp → ConnectionManager × Metrics
  | [] => st
  | op :: ops => ConnectionManager.runOps (ConnectionManager.applyOp st op) ops

/-- The id returned by the call at position `k` of `ops` (counting from 0)
when a manager fresh from `ConnectionManager.new max_connections` executes
`ops` in order; `none` for an `unregister` call or a failed `register`. -/
def registerOutAt (max_connections : Nat) (ops : List MgrOp) (k : Nat) :
    Option Nat :=
  let st := ConnectionManager.runOps (ConnectionManager.new max_connections,
    Metrics.new) (ops.take k)
  match ops.getD k (.unregister 0) with
  | .register addr => (st.1.register addr st.2).1
  | .unregister _ => none

/-- Number of `register` calls in a sequence of manager calls. -/
def countRegister (ops : List MgrOp) : Nat :=
  (ops.filter (fun op => match op with
    | .register _ => true
    | .unregister _ => false)).length

/-- `SOCKET_TTL` from `src/proxy/udp.rs`, in seconds. -/
def SOCKET_TTL : Nat := 60

/-- One entry of the UDP egress socket pool of `src/proxy/udp.rs`
(`target → (socket, last_used)`); the socket is an abstract identity and
`Instant`s are natural-number timestamps. -/
structure UdpPoolEntry where
  target : Nat
  socket : Nat
  last_used : Nat
deriving Repr, DecidableEq

/-- `struct UdpSocketPool`: the concurrent map is an association list. -/
structure UdpSocketPool where
  sockets : List UdpPoolEntry
deriving Repr, DecidableEq

/-- `UdpSocketPool::cleanup_stale`: retain entries whose age is below
`SOCKET_TTL * 2`. -/
def UdpSocketPool.cleanup_stale (pool : UdpSocketPool) (now : Nat) :
    UdpSocketPool :=
  ⟨pool.sockets.filter (fun e => now - e.last_used < SOCKET_TTL * 2)⟩

/-- The socket-creation tail of `UdpSocketPool::get_or_create`: bind a
fresh socket (its identity supplied by the oracle `fresh_socket`), insert
it with `last_used = now` (replacing any entry for the same target), run
`cleanup_stale`, and return the fresh socket. -/
def UdpSocketPool.createSocket (pool : UdpSocketPool)
    (now target fresh_socket : Nat) : Nat × UdpSocketPool :=
  let inserted : UdpSocketPool :=
    ⟨⟨target, fresh_socket, now⟩ ::
      pool.sockets.filter (fun e => e.target != target)⟩
  (fresh_socket, inserted.cleanup_stale now)

/-- `UdpSocketPool::get_or_create`: a cached entry younger than
`SOCKET_TTL` is returned as is (the early `return` skips everything else);
otherwise a fresh socket is bound, inserted and `cleanup_stale` runs. -/
def UdpSocketPool.get_or_create (pool : UdpSocketPool)
    (now target fresh_socket : Nat) : Nat × UdpSocketPool :=
  match pool.sockets.find? (fun e => e.target == target) with
  | some e =>
    if now - e.last_used < SOCKET_TTL then (e.socket, pool)
    else pool.createSocket now target fresh_socket
  | none => pool.createSocket now target fresh_socket

/-- Observable outcome of `StreamHandler::handle_stream` from
`src/server/acceptor.rs`: the status bytes written to the QUIC send side
(before any relayed payload), whether a TCP dial was attempted
(`TcpProxy::proxy_stream` reached `TcpStream::connect`), and whether the
handler returned `Ok`. -/
structure StreamResult where
  written : List Nat
  dialAttempted : Bool
  ok : Bool
deriving Repr, DecidableEq

/-- `StreamHandler::handle_stream`: read the 4 header bytes
`[type][port(2 BE)][hostlen]` and `hostlen` host bytes off the stream
(`request` is the byte sequence the peer sent), then branch on the type;
the dial result is the oracle `dialOk`.  A short read or invalid UTF-8
host errors out before anything is written. -/
def StreamHandler.handle_stream (request : List Nat) (dialOk : Bool) :
    StreamResult :=
  match request with
  | request_type :: _p1 :: _p2 :: host_len :: rest =>
    if rest.length < host_len then ⟨[], false, false⟩
    else if utf8Valid (rest.take host_len) then
      if request_type = 0x01 then
        if dialOk then ⟨[0x00], true, true⟩ else ⟨[0x00], true, false⟩
      else ⟨[0xFF], false, true⟩
    else ⟨[], false, false⟩
  | _ => ⟨[], false, false⟩

/-- Observable outcome of `ConnectionHandler::handle` from
`src/server/acceptor.rs`, up to the registration decision; the
per-connection loop after a successful registration is abstracted as
`proceeded`. -/
inductive HandleOutcome where
  | handshakeFailed
  | closed (code : Nat) (msg : String)
  | proceeded (id : Nat)
deriving Repr, DecidableEq

/-- `ConnectionHandler::handle`: a failed handshake bumps
`connection_failed` and errors out; a full slab closes the connection with
transport code 1 and message `server at capacity` and returns `Ok`;
otherwise the connection proceeds under the registered id. -/
def ConnectionHandler.handle (handshakeOk : Bool) (client_addr : String)
    (mgr : ConnectionManager) (m : Metrics) :
    HandleOutcome × ConnectionManager × Metrics :=
  if !handshakeOk then (.handshakeFailed, mgr, m.connection_failed)
  else
    match mgr.register client_addr m with
    | (none, mgr1, m1) => (.closed 1 ("server at capacity"), mgr1, m1)
    | (some id, mgr1, m1) => (.proceeded id, mgr1, m1)

/-- Result of `UdpRelay::relay_packet`, supplied to the datagram handler
as an oracle: a response, a send failure, or the 5 s response timeout. -/
inductive RelayOutcome where
  | response (data : List Nat)
  | sendFailed
  | timedOut
deriving Repr, DecidableEq

/-- Observable outcome of `DatagramHandler::handle_datagram`: whether the
handler returned `Ok`, and the response datagram sent back on the QUIC
connection, if any. -/
structure DatagramResult where
  ok : Bool
  sent : Option (List Nat)
deriving Repr, DecidableEq

/-- `DatagramHandler::handle_datagram` from `src/server/acceptor.rs`:
short datagrams return `Ok` at once; a non-UTF-8 host errors out; a relay
error is skipped by the `if let Ok`; a relay response is wrapped as
`[port(2 BE)][hostlen][host][response]`, sent best-effort, and
`datagram_tx` is bumped. -/
def DatagramHandler.handle_datagram (data : List Nat) (relay : RelayOutcome)
    (m : Metrics) : DatagramResult × Metrics :=
  if data.length < 4 then (⟨true, none⟩, m)
  else
    let port := data.getD 0 0 * 256 + data.getD 1 0
    let host_len := data.getD 2 0
    if data.length < 3 + host_len then (⟨true, none⟩, m)
    else
      let host := (data.drop 3).take host_len
      if utf8Valid host then
        match relay with
        | .response resp =>
          (⟨true, some (u16be port ++ (host_len :: host) ++ resp)⟩,
            m.datagram_tx)
        | .sendFailed => (⟨true, none⟩, m)
        | .timedOut => (⟨true, none⟩, m)
      else (⟨false, none⟩, m)

/-! ## Theorems -/

theorem tier_setTier (p : BufferPoolInner) (size : BufferSize) (t : TierState) :
    (p.setTier size t).tier size = t := by
  cases size <;> rfl

/-- C8: `RoutingPolicy::decide` applies its checks in exactly the order
the spec gives — blocked host, blocked port, allowed-port whitelist,
default — returning at the first match (`decideSpec` is that cascade
written from the spec's words); purity is inherent in the embedding, since
`RoutingPolicy.decide` is a function of the policy and the request alone. -/
theorem c8_decide_order : ∀ (p : RoutingPolicy) (r : Request),
    p.decide r = decideSpec p r := by
  intro p r
  unfold RoutingPolicy.decide decideSpec
  have h1 : (p.blocked_hosts.any (fun h => h == r.target_host)) =
      decide (r.target_host ∈ p.blocked_hosts) := by
    rw [Bool.eq_iff_iff]
    simp [List.any_beq']
  have h2 : p.blocked_ports.contains r.target_port =
      decide (r.target_port ∈ p.blocked_ports) := by
    simp [List.contains_eq_any_beq, List.any_beq]
  have h3 : p.allowed_ports.contains r.target_port =
      decide (r.target_port ∈ p.allowed_ports) := by
    simp [List.contains_eq_any_beq, List.any_beq]
  have h4 : p.allowed_ports.isEmpty = decide (p.allowed_ports = []) := by
    by_cases h : p.allowed_ports = [] <;> simp [h]
  rw [h1, h2, h3, h4]
  by_cases m1 : r.target_host ∈ p.blocked_hosts <;>
    by_cases m2 : r.target_port ∈ p.blocked_ports <;>
    by_cases m3 : p.allowed_ports = [] <;>
    by_cases m4 : r.target_port ∈ p.allowed_ports <;>
    by_cases m5 : p.default_allow = true <;>
    simp [m1, m2, m3, m4, m5]

/-- C3: the spec's pool equation
`in_use + free_queue_len + outstanding_overflow == allocated` is violated
by the code: one `acquire_or_alloc` on the drained small tier of a pool
built with no small buffers leaves the left side at 1 and `allocated` at
0, because the fallback allocation path touches neither `in_use` nor
`allocated`. -/
theorem c3_pool_equation_fails_at_overflow :
    ¬ ((BufferPoolInner.runOps (BufferPool.new 0 0 0)
        [.acqOrAlloc .Small]).tier .Small).poolEquation ∧
    ((BufferPoolInner.runOps (BufferPool.new 0 0 0)
        [.acqOrAlloc .Small]).tier .Small).in_use +
      ((BufferPoolInner.runOps (BufferPool.new 0 0 0)
        [.acqOrAlloc .Small]).tier .Small).queue_len +
      ((BufferPoolInner.runOps (BufferPool.new 0 0 0)
        [.acqOrAlloc .Small]).tier .Small).live_overflow = 1 ∧
    ((BufferPoolInner.runOps (BufferPool.new 0 0 0)
        [.acqOrAlloc .Small]).tier .Small).allocated = 0 := by
  refine ⟨?_, by decide, by decide⟩
  decide

/-- C10: on a tier whose queue is drained, `acquire_or_alloc` allocates
outside the pool without bumping `in_use`, yet dropping that buffer still
runs the `fetch_sub`; the net effect of the pair is `in_use` decreasing by
one modulo `2 ^ 64`, and from `in_use = 0` it wraps to `2 ^ 64 - 1`. -/
theorem c10_overflow_drop_wraps_in_use (p : BufferPoolInner)
    (size : BufferSize) (hq : (p.tier size).queue_len = 0)
    (hu : (p.tier size).in_use < U64) :
    ((BufferPoolInner.runOps p
        [.acqOrAlloc size, .dropOverflow size]).tier size).in_use =
      ((p.tier size).in_use + (U64 - 1)) % U64 ∧
    ((p.tier size).in_use = 0 →
      ((BufferPoolInner.runOps p
          [.acqOrAlloc size, .dropOverflow size]).tier size).in_use =
        U64 - 1) := by
  have hU : 0 < U64 := by norm_num [U64]
  have step : ((BufferPoolInner.runOps p
      [.acqOrAlloc size, .dropOverflow size]).tier size).in_use =
      ((p.tier size).in_use + (U64 - 1)) % U64 := by
    cases size <;>
      simp [BufferPoolInner.runOps, BufferPoolInner.applyOp,
        BufferPool.acquire_or_alloc, BufferPool.acquire,
        BufferPoolInner.tier, BufferPoolInner.setTier,
        TierState.return_buffer, BufferPoolInner.tier] at hq ⊢ <;>
      simp [hq]
  refine ⟨step, fun h0 => ?_⟩
  rw [step, h0, Nat.zero_add, Nat.mod_eq_of_lt (by omega)]

/-- C10 witness: a pool with no pre-allocated buffers, whose small tier
has an empty queue and `in_use = 0`. -/
theorem c10_overflow_drop_wraps_in_use_witness :
    ((BufferPoolInner.runOps (BufferPool.new 0 0 0)
        [.acqOrAlloc .Small, .dropOverflow .Small]).tier .Small).in_use =
      U64 - 1 :=
  (c10_overflow_drop_wraps_in_use (BufferPool.new 0 0 0) .Small rfl
    (by norm_num [BufferPool.new, BufferPoolInner.tier, U64])).2 rfl

/-- C6 (counterexample): with `SOCKET_TTL = 60`, take a pool holding a
young entry for target 0 (socket 7, `last_used = 100`) and a stale entry
for target 1 (socket 8, `last_used = 0`), and call `get_or_create` for
target 0 at `now = 130`.  The call hits the cache and returns with the
pool completely unchanged: the hit entry's `last_used` stays 100 instead
of being refreshed to 130, and the stale entry — of age 130 ≥
2 × SOCKET_TTL — is not evicted, both contrary to the claim. -/
theorem c6_counterexample :
    UdpSocketPool.get_or_create ⟨[⟨0, 7, 100⟩, ⟨1, 8, 0⟩]⟩ 130 0 9 =
      (7, ⟨[⟨0, 7, 100⟩, ⟨1, 8, 0⟩]⟩) ∧
    (UdpSocketPool.get_or_create
        ⟨[⟨0, 7, 100⟩, ⟨1, 8, 0⟩]⟩ 130 0 9).2.sockets.any
      (fun e => e.last_used == 130) = false ∧
    ⟨1, 8, 0⟩ ∈ (UdpSocketPool.get_or_create
        ⟨[⟨0, 7, 100⟩, ⟨1, 8, 0⟩]⟩ 130 0 9).2.sockets ∧
    SOCKET_TTL * 2 ≤ 130 - 0 := by
  exact ⟨rfl, rfl, by decide, by decide⟩

/-- C6 (amended): on `get_or_create`, a cached entry younger than
`SOCKET_TTL` is returned with the pool unchanged — its `last_used` is NOT
refreshed; only otherwise (stale hit or miss) is a fresh socket bound,
inserted with `last_used = now`, and only on that path are entries of age
`≥ 2 × SOCKET_TTL` evicted (the opportunistic sweep does not run on the
hit path). -/
theorem c6_get_or_create_characterized (pool : UdpSocketPool)
    (now target fresh : Nat) :
    (∀ e, pool.sockets.find? (fun x => x.target == target) = some e →
      now - e.last_used < SOCKET_TTL →
      pool.get_or_create now target fresh = (e.socket, pool)) ∧
    ((∀ e, pool.sockets.find? (fun x => x.target == target) = some e →
        SOCKET_TTL ≤ now - e.last_used) →
      pool.get_or_create now target fresh =
        (fresh, ⟨⟨target, fresh, now⟩ ::
          ((pool.sockets.filter (fun e => e.target != target)).filter
            (fun e => now - e.last_used < SOCKET_TTL * 2))⟩)) := by
  constructor
  · intro e he hyoung
    unfold UdpSocketPool.get_or_create
    rw [he]
    show (if now - e.last_used < SOCKET_TTL then (e.socket, pool)
      else pool.createSocket now target fresh) = (e.socket, pool)
    rw [if_pos hyoung]
  · intro hstale
    have hcreate : pool.createSocket now target fresh =
        (fresh, ⟨⟨target, fresh, now⟩ ::
          ((pool.sockets.filter (fun e => e.target != target)).filter
            (fun e => now - e.last_used < SOCKET_TTL * 2))⟩) := by
      unfold UdpSocketPool.createSocket UdpSocketPool.cleanup_stale
      simp [List.filter_cons, Nat.sub_self, SOCKET_TTL]
    unfold UdpSocketPool.get_or_create
    cases hf : pool.sockets.find? (fun x => x.target == target) with
    | none => exact hcreate
    | some e =>
      have hn : ¬ now - e.last_used < SOCKET_TTL :=
        Nat.not_lt.mpr (hstale e hf)
      show (if now - e.last_used < SOCKET_TTL then (e.socket, pool)
        else pool.createSocket now target fresh) = _
      rw [if_neg hn]
      exact hcreate

/-- C6 witness: both branches of the amended claim at concrete pools —
a young hit for target 0 returns the cached socket 7 and leaves the pool
untouched; a stale hit for target 1 binds fresh socket 9, replaces the
entry and sweeps. -/
theorem c6_get_or_create_characterized_witness :
    UdpSocketPool.get_or_create ⟨[⟨0, 7, 100⟩]⟩ 130 0 9 =
      (7, ⟨[⟨0, 7, 100⟩]⟩) ∧
    UdpSocketPool.get_or_create ⟨[⟨1, 8, 0⟩]⟩ 130 1 9 =
      (9, ⟨[⟨1, 9, 130⟩]⟩) := by
  constructor
  · exact (c6_get_or_create_characterized ⟨[⟨0, 7, 100⟩]⟩ 130 0 9).1
      ⟨0, 7, 100⟩ rfl (by decide)
  · have hstale : ∀ e : UdpPoolEntry,
        (UdpSocketPool.mk [⟨1, 8, 0⟩]).sockets.find?
          (fun x => x.target == 1) = some e →
        SOCKET_TTL ≤ 130 - e.last_used := by
      intro e he
      have h1 : (some ⟨1, 8, 0⟩ : Option UdpPoolEntry) = some e := he
      injection h1 with h2
      rw [← h2]
      decide
    exact ((c6_get_or_create_characterized ⟨[⟨1, 8, 0⟩]⟩ 130 1 9).2
      hstale).trans (by decide)

/-- C7 (counterexample): a well-formed datagram for host "x", port 53,
whose UDP relay times out, is silently dropped — the handler returns `Ok`
and sends nothing — but neither `errors_total` nor `timeouts_total` is
incremented, contrary to the claim; likewise for the 3-byte datagram that
fails to parse. -/
theorem c7_counterexample :
    DatagramHandler.handle_datagram [0, 53, 1, 120, 5] .timedOut
      Metrics.new = (⟨true, none⟩, Metrics.new) ∧
    (DatagramHandler.handle_datagram [0, 53, 1, 120, 5] .timedOut
      Metrics.new).2.timeouts_total = 0 ∧
    DatagramHandler.handle_datagram [0, 53, 0] .timedOut Metrics.new =
      (⟨true, none⟩, Metrics.new) ∧
    (DatagramHandler.handle_datagram [0, 53, 0] .timedOut
      Metrics.new).2.errors_total = 0 := by
  exact ⟨by decide, by decide, rfl, rfl⟩

/-- C7 (amended): datagram-level errors are silently dropped without
ending the per-connection loop — a datagram that fails to parse makes the
handler return `Ok` with nothing sent, and a relay timeout or send
failure leaves the handler `Ok` with nothing sent — but no counter is
touched: `errors_total` and `timeouts_total` are unchanged on every path
of the datagram handler. -/
theorem c7_datagram_errors_silent (data : List Nat) (relay : RelayOutcome)
    (m : Metrics) :
    ((DatagramHandler.handle_datagram data relay m).2.errors_total =
        m.errors_total ∧
      (DatagramHandler.handle_datagram data relay m).2.timeouts_total =
        m.timeouts_total) ∧
    (data.length < 4 →
      DatagramHandler.handle_datagram data relay m = (⟨true, none⟩, m)) ∧
    (relay = .timedOut ∨ relay = .sendFailed →
      (DatagramHandler.handle_datagram data relay m).1.sent = none ∧
      (DatagramHandler.handle_datagram data relay m).2 = m) := by
  have hbranch : DatagramHandler.handle_datagram data relay m =
        (⟨true, none⟩, m) ∨
      DatagramHandler.handle_datagram data relay m = (⟨false, none⟩, m) ∨
      (∃ resp, relay = .response resp ∧
        (DatagramHandler.handle_datagram data relay m).2 = m.datagram_tx ∧
        (DatagramHandler.handle_datagram data relay m).1.ok = true) := by
    unfold DatagramHandler.handle_datagram
    by_cases h1 : data.length < 4
    · simp [h1]
    · by_cases h2 : data.length < 3 + (data[2]?).getD 0
      · simp [h1, h2]
      · by_cases h3 : utf8Valid (List.take ((data[2]?).getD 0)
            (List.drop 3 data)) = true
        · cases relay <;> simp [h1, h2, h3]
        · simp [h1, h2, h3]
  refine ⟨?_, ?_, ?_⟩
  · rcases hbranch with h | h | ⟨resp, _, h, _⟩ <;>
      rw [h] <;> simp [Metrics.datagram_tx]
  · intro hshort
    unfold DatagramHandler.handle_datagram
    rw [if_pos hshort]
  · intro hrel
    rcases hbranch with h | h | ⟨resp, hresp, _, _⟩
    · rw [h]; exact ⟨rfl, rfl⟩
    · rw [h]; exact ⟨rfl, rfl⟩
    · rcases hrel with rfl | rfl <;> cases hresp

/-- C1 (counterexample): for the well-formed TCP_CONNECT request
`[0x01, 0x00, 0x50, 0x01, 0x78]` (type 0x01, port 80, host "x") whose
dial fails, the stream handler writes the single byte 0x00 — not 0xFF —
to the QUIC send side and attempts the dial anyway; no routing policy is
in scope in `StreamHandler::handle_stream`, so no Allow decision preceded
either the 0x00 or the dial. -/
theorem c1_counterexample :
    StreamHandler.handle_stream [0x01, 0x00, 0x50, 0x01, 0x78] false =
      ⟨[0x00], true, false⟩ ∧
    (StreamHandler.handle_stream [0x01, 0x00, 0x50, 0x01, 0x78]
      false).written ≠ [0xFF] := by
  exact ⟨rfl, by decide⟩

/-- C1 (amended): the stream handler consults no routing policy.  For
every well-formed request of type 0x01 it writes the single byte 0x00
unconditionally, before dialing — so also when the dial then fails, in
which case the stream ends in error with 0x00 (never 0xFF) written; the
single byte 0xFF is written exactly for well-formed requests of unknown
type, for which no dial is attempted. -/
theorem c1_stream_handler_behaviour (t p1 p2 : Nat) (host extra : List Nat)
    (dialOk : Bool) (hutf : utf8Valid host = true) :
    (t = 0x01 →
      StreamHandler.handle_stream
        (t :: p1 :: p2 :: host.length :: (host ++ extra)) dialOk =
        ⟨[0x00], true, dialOk⟩) ∧
    (t ≠ 0x01 →
      StreamHandler.handle_stream
        (t :: p1 :: p2 :: host.length :: (host ++ extra)) dialOk =
        ⟨[0xFF], false, true⟩) := by
  have hlen : ¬ (host ++ extra).length < host.length := by
    rw [List.length_append]; omega
  have htake : (host ++ extra).take host.length = host :=
    List.take_left host extra
  constructor
  · intro ht
    simp only [StreamHandler.handle_stream]
    rw [if_neg hlen, htake, hutf, if_pos rfl, if_pos ht]
    cases dialOk <;> rfl
  · intro ht
    simp only [StreamHandler.handle_stream]
    rw [if_neg hlen, htake, hutf, if_pos rfl, if_neg ht]

/-- C1 witness: the amended behaviour at the concrete request of
`c1_counterexample` (type 0x01, host "x", failing dial) and at an
unknown-type request. -/
theorem c1_stream_handler_behaviour_witness :
    StreamHandler.handle_stream [0x01, 0x00, 0x50, 0x01, 0x78] false =
      ⟨[0x00], true, false⟩ ∧
    StreamHandler.handle_stream [0x02, 0x00, 0x50, 0x01, 0x78] false =
      ⟨[0xFF], false, true⟩ := by
  constructor
  · exact (c1_stream_handler_behaviour 0x01 0x00 0x50 [0x78] [] false
      (by decide)).1 rfl
  · exact (c1_stream_handler_behaviour 0x02 0x00 0x50 [0x78] [] false
      (by decide)).2 (by decide)

/-- C2 (counterexample): on a manager whose slab has zero slots, a
connection whose handshake succeeded is rejected — `register` returns
`none` and the connection is closed with transport code 1 and message
`server at capacity` — but `connections_failed` is NOT incremented for
it: the counter stays 0, while the claim requires it to become 1. -/
theorem c2_counterexample :
    (ConnectionHandler.handle true ("1.2.3.4:5") (ConnectionManager.new 0)
      Metrics.new).1 = .closed 1 ("server at capacity") ∧
    (ConnectionHandler.handle true ("1.2.3.4:5") (ConnectionManager.new 0)
      Metrics.new).2.2.connections_failed = 0 := by
  exact ⟨rfl, rfl⟩

/-- C2 (amended): whenever the slab is full (`insert` of the freshly
minted state fails), `handle` after a successful handshake closes the
connection with transport code 1 and message `server at capacity` and
leaves `connections_failed` unchanged; the counter is bumped only on the
handshake-failure path. -/
theorem c2_capacity_rejection (client_addr : String)
    (mgr : ConnectionManager) (m : Metrics)
    (hfull : mgr.connections.insert
      ⟨mgr.next_id, client_addr⟩ = none) :
    ConnectionHandler.handle true client_addr mgr m =
      (.closed 1 ("server at capacity"),
        { mgr with next_id := (mgr.next_id + 1) % U64 }, m) ∧
    (ConnectionHandler.handle false client_addr mgr m).2.2.connections_failed
      = (m.connections_failed + 1) % U64 := by
  constructor
  · simp [ConnectionHandler.handle, ConnectionManager.register, hfull]
  · rfl

/-- C2 witness: the amended behaviour on the concrete zero-capacity
manager of `c2_counterexample`. -/
theorem c2_capacity_rejection_witness :
    ConnectionHandler.handle true ("1.2.3.4:5") (ConnectionManager.new 0)
      Metrics.new =
      (.closed 1 ("server at capacity"),
        { ConnectionManager.new 0 with next_id := (1 + 1) % U64 },
        Metrics.new) ∧
    (ConnectionHandler.handle false ("1.2.3.4:5") (ConnectionManager.new 0)
      Metrics.new).2.2.connections_failed = (0 + 1) % U64 :=
  c2_capacity_rejection ("1.2.3.4:5") (ConnectionManager.new 0) Metrics.new
    rfl

/-- C5 (counterexample): at host length 0 and payload length 0 the claim
fails — the encoding of `(host = "", port = 53, payload = [])` is the
3-byte datagram `[0, 53, 0]`, which `decode_udp_packet` rejects as too
short, so decoding the encoding is not the identity there. -/
theorem c5_counterexample :
    encode_udp_packet [] 53 [] = some [0, 53, 0] ∧
    decode_udp_packet [0, 53, 0] = none := by
  exact ⟨rfl, rfl⟩

/-- C5 (amended): for every host of at most 255 bytes (valid UTF-8),
every 16-bit port and every payload with `host.length + payload.length ≥
1`, decoding the encoding returns exactly `(host, port, payload)`; and
every wire datagram that decodes re-encodes to itself.  The only inputs
excluded are the simultaneous host length 0 and payload length 0 of the
counterexample. -/
theorem c5_roundtrip_except_both_empty (host payload : List Nat)
    (port : Nat) (hh : host.length ≤ 255) (hu : utf8Valid host = true)
    (hp : port < 65536) (hne : 1 ≤ host.length + payload.length) :
    (encode_udp_packet host port payload =
        some (u16be port ++ (host.length :: host) ++ payload) ∧
      decode_udp_packet (u16be port ++ (host.length :: host) ++ payload) =
        some ⟨host, port, payload⟩) ∧
    ∀ data pkt, decode_udp_packet data = some pkt →
      (∀ b ∈ data, b < 256) →
      encode_udp_packet pkt.host pkt.port pkt.payload = some data := by
  refine ⟨⟨?_, ?_⟩, ?_⟩
  · unfold encode_udp_packet
    rw [if_neg (show ¬ host.length > 255 by omega)]
  · obtain ⟨b3, tl, he⟩ : ∃ b3 tl, host ++ payload = b3 :: tl := by
      cases hcase : host ++ payload with
      | nil =>
        exfalso
        have hlen0 : host.length + payload.length = 0 := by
          rw [← List.length_append, hcase]; rfl
        omega
      | cons b3 tl => exact ⟨b3, tl, rfl⟩
    have hshape : u16be port ++ (host.length :: host) ++ payload =
        (port / 256 % 256) :: (port % 256) :: host.length ::
          (host ++ payload) := rfl
    rw [hshape, he]
    simp only [decode_udp_packet]
    rw [← he]
    have h1 : ¬ (host ++ payload).length < host.length := by
      rw [List.length_append]; omega
    rw [if_neg h1, List.take_left host payload, hu, if_pos rfl,
      List.drop_left host payload]
    have hport : port / 256 % 256 * 256 + port % 256 = port := by omega
    rw [hport]
  · intro data pkt hdec hbytes
    rcases data with _ | ⟨b0, _ | ⟨b1, _ | ⟨b2, _ | ⟨b3, tl⟩⟩⟩⟩ <;>
      try exact Option.noConfusion hdec
    simp only [decode_udp_packet] at hdec
    by_cases hlen2 : (b3 :: tl).length < b2
    · rw [if_pos hlen2] at hdec; cases hdec
    · rw [if_neg hlen2] at hdec
      by_cases hu2 : utf8Valid ((b3 :: tl).take b2) = true
      · rw [if_pos hu2] at hdec
        obtain rfl : pkt = ⟨(b3 :: tl).take b2, b0 * 256 + b1,
            (b3 :: tl).drop b2⟩ := (Option.some.inj hdec).symm
        have hb0 : b0 < 256 := hbytes b0 (by simp)
        have hb1 : b1 < 256 := hbytes b1 (by simp)
        have hb2 : b2 < 256 := hbytes b2 (by simp)
        have htl : ((b3 :: tl).take b2).length = b2 := by
          rw [List.length_take]; omega
        unfold encode_udp_packet
        rw [htl, if_neg (by omega)]
        have hu16 : u16be (b0 * 256 + b1) = [b0, b1] := by
          unfold u16be
          have e1 : (b0 * 256 + b1) / 256 % 256 = b0 := by omega
          have e2 : (b0 * 256 + b1) % 256 = b1 := by omega
          rw [e1, e2]
        rw [hu16]
        show some ([b0, b1] ++ (b2 :: List.take b2 (b3 :: tl)) ++
          List.drop b2 (b3 :: tl)) = some (b0 :: b1 :: b2 :: b3 :: tl)
        rw [show [b0, b1] ++ (b2 :: List.take b2 (b3 :: tl)) ++
            List.drop b2 (b3 :: tl) = b0 :: b1 :: b2 ::
              (List.take b2 (b3 :: tl) ++ List.drop b2 (b3 :: tl)) from by
            simp,
          List.take_append_drop]
      · rw [if_neg hu2] at hdec; cases hdec

/-- C5 witness: the amended round trip at host "x", port 53, empty
payload, in both directions. -/
theorem c5_roundtrip_except_both_empty_witness :
    decode_udp_packet [0, 53, 1, 120] = some ⟨[120], 53, []⟩ ∧
    encode_udp_packet [120] 53 [] = some [0, 53, 1, 120] := by
  have h := c5_roundtrip_except_both_empty [120] [] 53 (by decide)
    (by decide) (by decide) (by decide)
  exact ⟨h.1.2, h.2 [0, 53, 1, 120] ⟨[120], 53, []⟩ (by decide) (by decide)⟩

theorem ctzAux_spec (w : Nat) :
    ∀ (fuel i j : Nat), i ≤ j → j < i + fuel → w.testBit j = true →
      w.testBit (ctzAux w i fuel) = true ∧ ctzAux w i fuel < i + fuel := by
  intro fuel
  induction fuel with
  | zero => intro i j h1 h2 h3; omega
  | succ n ih =>
    intro i j h1 h2 h3
    have hstep : ctzAux w i (n + 1) =
        if w.testBit i then i else ctzAux w (i + 1) n := rfl
    by_cases hi : w.testBit i = true
    · rw [hstep, if_pos hi]
      exact ⟨hi, by omega⟩
    · rw [hstep, if_neg hi]
      have hj : i + 1 ≤ j := by
        rcases Nat.eq_or_lt_of_le h1 with rfl | h
        · rw [h3] at hi; exact absurd rfl hi
        · omega
      have hrec := ih (i + 1) j hj (by omega) h3
      exact ⟨hrec.1, by omega⟩

theorem ctz64_spec (w : Nat) (hw : w ≠ 0) (hlt : w < 2 ^ 64) :
    w.testBit (ctz64 w) = true ∧ ctz64 w < 64 := by
  obtain ⟨j, hj64, hjbit⟩ : ∃ j, j < 64 ∧ w.testBit j = true := by
    by_contra hcon
    push_neg at hcon
    apply hw
    apply Nat.eq_of_testBit_eq
    intro i
    rw [Nat.zero_testBit]
    by_cases hi : i < 64
    · simpa using hcon i hi
    · exact Nat.testBit_lt_two_pow (lt_of_lt_of_le hlt
        (Nat.pow_le_pow_right (by norm_num) (by omega)))
  have h := ctzAux_spec w 64 0 j (by omega) (by omega) hjbit
  unfold ctz64
  exact ⟨h.1, by simpa using h.2⟩

theorem testBit_maskClear (w b j : Nat) (hw : w < 2 ^ 64) (hb : b < 64) :
    (w &&& ((2 ^ 64 - 1) ^^^ (1 <<< b))).testBit j =
      (w.testBit j && !(j == b)) := by
  have hshift : (1 <<< b) = 2 ^ b := by rw [Nat.shiftLeft_eq, Nat.one_mul]
  rw [Nat.testBit_and, Nat.testBit_xor, hshift, Nat.testBit_two_pow_sub_one,
    Nat.testBit_two_pow]
  by_cases hj : j < 64
  · by_cases hjb : j = b <;> cases hwj : w.testBit j <;>
      simp [hj, hjb, hwj, hb] <;>
      simp [Ne.symm hjb, hjb]
  · have hwj : w.testBit j = false := Nat.testBit_lt_two_pow
      (lt_of_lt_of_le hw (Nat.pow_le_pow_right (by norm_num) (by omega)))
    have hbj : ¬ b = j := by omega
    simp [hwj, hbj, hj]

theorem testBit_maskSet (w b j : Nat) :
    (w ||| (1 <<< b)).testBit j = (w.testBit j || (j == b)) := by
  have hshift : (1 <<< b) = 2 ^ b := by rw [Nat.shiftLeft_eq, Nat.one_mul]
  rw [Nat.testBit_or, hshift, Nat.testBit_two_pow]
  by_cases hjb : j = b
  · subst hjb
    simp
  · simp [hjb, Ne.symm hjb]

theorem getD_set_ite {α : Type} (l : List α) (i j : Nat) (a d : α) :
    (l.set i a).getD j d =
      if j = i ∧ i < l.length then a else l.getD j d := by
  by_cases h : j = i ∧ i < l.length
  · obtain ⟨rfl, hlen⟩ := h
    rw [if_pos ⟨rfl, hlen⟩]
    simp [List.getD_eq_getElem?_getD, List.getElem?_set_self hlen]
  · rw [if_neg h]
    by_cases hji : j = i
    · subst hji
      have hlen : ¬ j < l.length := fun hc => h ⟨rfl, hc⟩
      rw [List.set_eq_of_length_le (by omega)]
    · simp [List.getD_eq_getElem?_getD,
        List.getElem?_set_ne (fun hh => hji hh.symm)]

theorem countP_range_update_true (c idx : Nat) (f g : Nat → Bool)
    (hne : ∀ j, j ≠ idx → g j = f j) (hf : f idx = false)
    (hg : g idx = true) (hmem : idx < c) :
    (List.range c).countP g = (List.range c).countP f + 1 := by
  induction c with
  | zero => omega
  | succ n ih =>
    rw [List.range_succ, List.countP_append, List.countP_append]
    by_cases h : idx = n
    · subst h
      have hpre : (List.range idx).countP g = (List.range idx).countP f :=
        List.countP_congr (fun a ha => by
          have hne' : a ≠ idx := by
            simp only [List.mem_range] at ha; omega
          rw [hne a hne'])
      rw [hpre]
      simp [List.countP_cons, hf, hg]
    · have hrec := ih (by omega)
      have heq : g n = f n := hne n (fun hh => h hh.symm)
      rw [hrec]
      simp [List.countP_cons, heq]
      omega

theorem countP_range_le (c : Nat) (f : Nat → Bool) :
    (List.range c).countP f ≤ c := by
  have := List.countP_le_length (p := f) (l := List.range c)
  simpa using this

theorem countP_range_lt_of_false (c idx : Nat) (f : Nat → Bool)
    (hidx : idx < c) (hf : f idx = false) :
    (List.range c).countP f < c := by
  have hsum := List.length_eq_countP_add_countP (p := f) (l := List.range c)
  have hpos : 0 < (List.range c).countP (fun a => ¬f a) := by
    rw [List.countP_pos_iff]
    exact ⟨idx, by simpa using hidx, by simp [hf]⟩
  simp only [List.length_range] at hsum
  omega

theorem countP_range_pos_of_true (c idx : Nat) (f : Nat → Bool)
    (hidx : idx < c) (hf : f idx = true) :
    0 < (List.range c).countP f := by
  rw [List.countP_pos_iff]
  exact ⟨idx, by simpa using hidx, hf⟩

theorem enum_get? {α : Type} (l : List α) :
    ∀ p ∈ l.enum, l.get? p.1 = some p.2 := by
  intro p hp
  rw [List.mem_iff_getElem?] at hp
  obtain ⟨m, hm⟩ := hp
  rw [List.getElem?_enum] at hm
  cases hl : l[m]? with
  | none => rw [hl] at hm; cases hm
  | some a =>
    rw [hl] at hm
    cases hm
    rw [List.get?_eq_getElem?]
    exact hl

theorem insertScan_some {T : Type} (s : ConnectionSlab T) (v : T) :
    ∀ (L : List (Nat × Nat)) (idx : Nat) (s' : ConnectionSlab T),
      (∀ p ∈ L, s.free_bitset.get? p.1 = some p.2) →
      insertScan s v L = some (idx, s') →
      ∃ wi cur, s.free_bitset.get? wi = some cur ∧ cur ≠ 0 ∧
        idx = wi * 64 + ctz64 cur ∧ idx < s.capacity ∧
        s' = { s with
          free_bitset := s.free_bitset.set wi
            (cur &&& ((2 ^ 64 - 1) ^^^ (1 <<< ctz64 cur))),
          slots := s.slots.set idx (some v),
          allocated := (s.allocated + 1) % U64 } := by
  intro L
  induction L with
  | nil => intro idx s' _ h; cases h
  | cons p rest ih =>
    intro idx s' hL h
    obtain ⟨wi, cur⟩ := p
    simp only [insertScan] at h
    by_cases h0 : cur = 0
    · rw [if_pos h0] at h
      exact ih idx s' (fun q hq => hL q (List.mem_cons_of_mem _ hq)) h
    · rw [if_neg h0] at h
      by_cases hcap : s.capacity ≤ wi * 64 + ctz64 cur
      · rw [if_pos hcap] at h
        exact ih idx s' (fun q hq => hL q (List.mem_cons_of_mem _ hq)) h
      · rw [if_neg hcap] at h
        cases Option.some.inj h
        exact ⟨wi, cur, hL (wi, cur) (List.mem_cons_self _ _), h0, rfl,
          by omega, rfl⟩

theorem insert_some_inv {T : Type} {s : ConnectionSlab T} {v : T}
    {idx : Nat} {s' : ConnectionSlab T} (hs : SlabInv s)
    (hcap : s.capacity < U64)
    (h : s.insert v = some (idx, s')) :
    SlabInv s' ∧ idx < s.capacity ∧ s.bitAt idx = true ∧
    s.slots.getD idx none = none ∧
    s'.slots.getD idx none = some v ∧
    s'.capacity = s.capacity ∧
    (∀ j, j ≠ idx → s'.slots.getD j none = s.slots.getD j none) ∧
    s'.allocated = s.allocated + 1 := by
  obtain ⟨wi, cur, hget, h0, hidx, hlt, hs'⟩ :=
    insertScan_some s v s.free_bitset.enum idx s'
      (enum_get? s.free_bitset) h
  have hcurlt : cur < 2 ^ 64 := hs.words_lt cur (List.get?_mem hget)
  have hczspec := ctz64_spec cur h0 hcurlt
  have hbit : cur.testBit (ctz64 cur) = true := hczspec.1
  have hbi : ctz64 cur < 64 := hczspec.2
  have hdiv : idx / 64 = wi := by omega
  have hmod : idx % 64 = ctz64 cur := by omega
  have hwilen : wi < s.free_bitset.length := by
    rcases List.get?_eq_some.mp hget with ⟨hl, _⟩
    exact hl
  have hgetD : s.free_bitset.getD wi 0 = cur := by
    rw [List.getD_eq_get?, hget]
    rfl
  have hbitAt : s.bitAt idx = true := by
    unfold ConnectionSlab.bitAt
    rw [hdiv, hgetD, hmod]
    exact hbit
  have hcaple : s.capacity ≤ s.slots.length := by
    rw [hs.slots_len]
    unfold numWords
    omega
  have hempty : s.slots.getD idx none = none :=
    (hs.free_iff_empty idx hlt).mp hbitAt
  subst hs'
  set nw := cur &&& ((2 ^ 64 - 1) ^^^ (1 <<< ctz64 cur)) with hnw
  have hslot_idx : (s.slots.set idx (some v)).getD idx none = some v := by
    rw [getD_set_ite, if_pos ⟨rfl, by omega⟩]
  have hslot_ne : ∀ j, j ≠ idx →
      (s.slots.set idx (some v)).getD j none = s.slots.getD j none := by
    intro j hj
    rw [getD_set_ite, if_neg (fun hh => hj hh.1)]
  have hword' : ∀ k, (s.free_bitset.set wi nw).getD k 0 =
      if k = wi then nw else s.free_bitset.getD k 0 := by
    intro k
    rw [getD_set_ite]
    by_cases hk : k = wi
    · subst hk
      rw [if_pos ⟨rfl, hwilen⟩, if_pos rfl]
    · rw [if_neg (fun hh => hk hh.1), if_neg hk]
  have hbit_same : ∀ j, j / 64 = wi →
      ((s.free_bitset.set wi nw).getD (j / 64) 0).testBit (j % 64) =
      (cur.testBit (j % 64) && !((j % 64) == ctz64 cur)) := by
    intro j hj
    rw [hj, hword' wi, if_pos rfl, hnw]
    exact testBit_maskClear cur (ctz64 cur) (j % 64) hcurlt hbi
  have hbit_other : ∀ j, j / 64 ≠ wi →
      ((s.free_bitset.set wi nw).getD (j / 64) 0).testBit (j % 64) =
      s.bitAt j := by
    intro j hj
    unfold ConnectionSlab.bitAt
    rw [hword' (j / 64), if_neg hj]
  have hbitAt'_ne : ∀ j, j ≠ idx →
      ((s.free_bitset.set wi nw).getD (j / 64) 0).testBit (j % 64) =
      s.bitAt j := by
    intro j hj
    by_cases hsame : j / 64 = wi
    · rw [hbit_same j hsame]
      have hne64 : ¬ (j % 64 = ctz64 cur) := by
        intro hcontra
        apply hj
        omega
      have : (decide (j % 64 = ctz64 cur)) = false := by
        simp [hne64]
      unfold ConnectionSlab.bitAt
      rw [hsame, hgetD]
      simp [hne64]
    · exact hbit_other j hsame
  have hbitAt'_idx :
      ((s.free_bitset.set wi nw).getD (idx / 64) 0).testBit (idx % 64) =
      false := by
    rw [hbit_same idx hdiv, hmod]
    simp
  have halloc_lt : s.allocated < s.capacity := by
    rw [hs.alloc_eq]
    exact countP_range_lt_of_false s.capacity idx _ hlt
      (by rw [hempty]; rfl)
  have hallocmod : (s.allocated + 1) % U64 = s.allocated + 1 :=
    Nat.mod_eq_of_lt (by omega)
  have hocc' : (List.range s.capacity).countP
      (fun i => (((s.slots.set idx (some v))).getD i none).isSome) =
      s.allocated + 1 := by
    rw [countP_range_update_true s.capacity idx
      (fun i => (s.slots.getD i none).isSome)
      (fun i => ((s.slots.set idx (some v)).getD i none).isSome)
      (fun j hj => by
        show ((s.slots.set idx (some v)).getD j none).isSome =
          (s.slots.getD j none).isSome
        rw [hslot_ne j hj])
      (by show (s.slots.getD idx none).isSome = false
          rw [hempty]; rfl)
      (by show ((s.slots.set idx (some v)).getD idx none).isSome = true
          rw [hslot_idx]; rfl) hlt]
    have hoc : (List.range s.capacity).countP
        (fun i => (s.slots.getD i none).isSome) = s.allocated := by
      rw [hs.alloc_eq]
      rfl
    rw [hoc]
  refine ⟨?_, hlt, hbitAt, hempty, hslot_idx, rfl, hslot_ne, hallocmod⟩
  constructor
  case words_len => simpa using hs.words_len
  case slots_len => simpa using hs.slots_len
  case words_lt =>
    intro w hw
    rcases List.mem_or_eq_of_mem_set hw with hmem | rfl
    · exact hs.words_lt w hmem
    · exact lt_of_le_of_lt Nat.and_le_left hcurlt
  case beyond_zero =>
    intro i hi
    have hi' : s.capacity ≤ i := hi
    have hne : i ≠ idx := by omega
    show ((s.free_bitset.set wi nw).getD (i / 64) 0).testBit (i % 64) = false
    rw [hbitAt'_ne i hne]
    exact hs.beyond_zero i hi
  case beyond_empty =>
    intro i hi
    have hi' : s.capacity ≤ i := hi
    have hne : i ≠ idx := by omega
    show (s.slots.set idx (some v)).getD i none = none
    rw [hslot_ne i hne]
    exact hs.beyond_empty i hi
  case free_iff_empty =>
    intro i hi
    have hi' : i < s.capacity := hi
    by_cases hie : i = idx
    · subst hie
      show (((s.free_bitset.set wi nw).getD (i / 64) 0).testBit (i % 64) =
        true ↔ (s.slots.set i (some v)).getD i none = none)
      rw [hbitAt'_idx, hslot_idx]
      simp
    · show (((s.free_bitset.set wi nw).getD (i / 64) 0).testBit (i % 64) =
        true ↔ (s.slots.set idx (some v)).getD i none = none)
      rw [hbitAt'_ne i hie, hslot_ne i hie]
      exact hs.free_iff_empty i hi
  case alloc_eq =>
    show (s.allocated + 1) % U64 = _
    rw [hallocmod]
    exact hocc'.symm

theorem remove_eq {T : Type} (s : ConnectionSlab T) (h : Nat) :
    (s.capacity ≤ h → s.remove h = (none, s)) ∧
    (¬ s.capacity ≤ h → s.slots.getD h none = none →
      s.remove h = (none, s)) ∧
    (∀ value, ¬ s.capacity ≤ h → s.slots.getD h none = some value →
      s.remove h = (some value,
        { s with slots := s.slots.set h none,
                 free_bitset := s.free_bitset.set (h / 64)
                   (s.free_bitset.getD (h / 64) 0 ||| (1 <<< (h % 64))),
                 allocated := (s.allocated + (U64 - 1)) % U64 })) := by
  refine ⟨fun hc => ?_, fun hc he => ?_, fun value hc hv => ?_⟩
  · unfold ConnectionSlab.remove
    rw [if_pos hc]
  · unfold ConnectionSlab.remove
    rw [if_neg hc, he]
  · unfold ConnectionSlab.remove
    rw [if_neg hc, hv]

theorem getD_words_lt {T : Type} {s : ConnectionSlab T} (hs : SlabInv s) :
    ∀ k, s.free_bitset.getD k 0 < 2 ^ 64 := by
  intro k
  rw [List.getD_eq_get?]
  cases hk : s.free_bitset.get? k with
  | none => positivity
  | some a => exact hs.words_lt a (List.get?_mem hk)

theorem remove_inv {T : Type} {s : ConnectionSlab T} (h : Nat)
    (hs : SlabInv s) (hcap : s.capacity < U64) :
    SlabInv (s.remove h).2 ∧ (s.remove h).2.capacity = s.capacity ∧
    (∀ j, j ≠ h → (s.remove h).2.slots.getD j none =
      s.slots.getD j none) := by
  by_cases hc : s.capacity ≤ h
  · rw [(remove_eq s h).1 hc]
    exact ⟨hs, rfl, fun _ _ => rfl⟩
  · cases hslot : s.slots.getD h none with
    | none =>
      rw [(remove_eq s h).2.1 hc hslot]
      exact ⟨hs, rfl, fun _ _ => rfl⟩
    | some value =>
      rw [(remove_eq s h).2.2 value hc hslot]
      have hh : h < s.capacity := by omega
      have hmod64 : h % 64 < 64 := Nat.mod_lt h (by norm_num)
      have hwilen : h / 64 < s.free_bitset.length := by
        rw [hs.words_len]
        unfold numWords
        omega
      have hcaple : s.capacity ≤ s.slots.length := by
        rw [hs.slots_len]
        unfold numWords
        omega
      set ow := s.free_bitset.getD (h / 64) 0 with how
      set nw := ow ||| (1 <<< (h % 64)) with hnw
      have howlt : ow < 2 ^ 64 := getD_words_lt hs (h / 64)
      have hnwlt : nw < 2 ^ 64 := by
        rw [hnw]
        apply Nat.or_lt_two_pow howlt
        rw [Nat.shiftLeft_eq, Nat.one_mul]
        exact Nat.pow_lt_pow_right (by norm_num) hmod64
      have hslot_h : (s.slots.set h none).getD h none = none := by
        rw [getD_set_ite]
        by_cases hhl : h < s.slots.length
        · rw [if_pos ⟨rfl, hhl⟩]
        · rw [if_neg (fun hx => hhl hx.2)]
          exact hslot ▸ (by
            exfalso
            apply hhl
            omega)
      have hslot_ne : ∀ j, j ≠ h →
          (s.slots.set h none).getD j none = s.slots.getD j none := by
        intro j hj
        rw [getD_set_ite, if_neg (fun hx => hj hx.1)]
      have hword' : ∀ k, (s.free_bitset.set (h / 64) nw).getD k 0 =
          if k = h / 64 then nw else s.free_bitset.getD k 0 := by
        intro k
        rw [getD_set_ite]
        by_cases hk : k = h / 64
        · subst hk
          rw [if_pos ⟨rfl, hwilen⟩, if_pos rfl]
        · rw [if_neg (fun hx => hk hx.1), if_neg hk]
      have hbit_h :
          ((s.free_bitset.set (h / 64) nw).getD (h / 64) 0).testBit
            (h % 64) = true := by
        rw [hword' (h / 64), if_pos rfl, hnw, testBit_maskSet]
        simp
      have hbit_ne : ∀ j, j ≠ h →
          ((s.free_bitset.set (h / 64) nw).getD (j / 64) 0).testBit
            (j % 64) = s.bitAt j := by
        intro j hj
        by_cases hsame : j / 64 = h / 64
        · rw [hsame, hword' (h / 64), if_pos rfl, hnw, testBit_maskSet]
          have hne64 : ¬ (j % 64 = h % 64) := by
            intro hcontra
            apply hj
            omega
          unfold ConnectionSlab.bitAt
          rw [hsame, ← how]
          simp [hne64]
        · unfold ConnectionSlab.bitAt
          rw [hword' (j / 64), if_neg hsame]
      have hallocpos : 0 < s.allocated := by
        rw [hs.alloc_eq]
        exact countP_range_pos_of_true s.capacity h _ hh
          (by rw [hslot]; rfl)
      have halloc_le : s.allocated ≤ s.capacity := by
        rw [hs.alloc_eq]
        exact countP_range_le s.capacity _
      have hallocmod : (s.allocated + (U64 - 1)) % U64 = s.allocated - 1 := by
        have he : s.allocated + (U64 - 1) = (s.allocated - 1) + U64 := by
          omega
        rw [he, Nat.add_mod_right, Nat.mod_eq_of_lt (by omega)]
      have hocc' : (List.range s.capacity).countP
          (fun i => (s.slots.getD i none).isSome) =
          (List.range s.capacity).countP
            (fun i => ((s.slots.set h none).getD i none).isSome) + 1 := by
        exact countP_range_update_true s.capacity h
          (fun i => ((s.slots.set h none).getD i none).isSome)
          (fun i => (s.slots.getD i none).isSome)
          (fun j hj => by
            show (s.slots.getD j none).isSome =
              ((s.slots.set h none).getD j none).isSome
            rw [hslot_ne j hj])
          (by show ((s.slots.set h none).getD h none).isSome = false
              rw [hslot_h]; rfl)
          (by show (s.slots.getD h none).isSome = true
              rw [hslot]; rfl) hh
      refine ⟨?_, rfl, hslot_ne⟩
      refine ⟨?_, ?_, ?_, ?_, ?_, ?_, ?_⟩
      · simpa using hs.words_len
      · simpa using hs.slots_len
      · intro w hw
        rcases List.mem_or_eq_of_mem_set hw with hmem | rfl
        · exact hs.words_lt w hmem
        · exact hnwlt
      · intro i hi
        have hi' : s.capacity ≤ i := hi
        have hne : i ≠ h := by omega
        show ((s.free_bitset.set (h / 64) nw).getD (i / 64) 0).testBit
          (i % 64) = false
        rw [hbit_ne i hne]
        exact hs.beyond_zero i hi'
      · intro i hi
        have hi' : s.capacity ≤ i := hi
        have hne : i ≠ h := by omega
        show (s.slots.set h none).getD i none = none
        rw [hslot_ne i hne]
        exact hs.beyond_empty i hi'
      · intro i hi
        have hi' : i < s.capacity := hi
        by_cases hie : i = h
        · subst hie
          show ((s.free_bitset.set (i / 64) nw).getD (i / 64) 0).testBit
            (i % 64) = true ↔ (s.slots.set i none).getD i none = none
          rw [hbit_h, hslot_h]
          simp
        · show ((s.free_bitset.set (h / 64) nw).getD (i / 64) 0).testBit
            (i % 64) = true ↔ (s.slots.set h none).getD i none = none
          rw [hbit_ne i hie, hslot_ne i hie]
          exact hs.free_iff_empty i hi'
      · show (s.allocated + (U64 - 1)) % U64 =
          (List.range s.capacity).countP
            (fun i => ((s.slots.set h none).getD i none).isSome)
        rw [hallocmod]
        have halloc := hs.alloc_eq
        unfold occupiedCount at halloc
        omega

theorem new_getD_word (c k : Nat) :
    ((List.range (numWords c)).map (initWord c)).getD k 0 =
      if k < numWords c then initWord c k else 0 := by
  by_cases hk : k < numWords c
  · rw [if_pos hk, List.getD_eq_getElem?_getD, List.getElem?_map,
      List.getElem?_range hk]
    rfl
  · rw [if_neg hk, List.getD_eq_getElem?_getD]
    have hlen : ((List.range (numWords c)).map (initWord c)).length ≤ k := by
      simpa using Nat.le_of_not_lt hk
    rw [List.getElem?_eq_none hlen]
    rfl

theorem new_inv (T : Type) (c : Nat) : SlabInv (ConnectionSlab.new T c) := by
  have hslots : ∀ i, (ConnectionSlab.new T c).slots.getD i none = none := by
    intro i
    show (List.replicate (numWords c * 64) (none : Option T)).getD i none =
      none
    rw [List.getD_eq_getElem?_getD, List.getElem?_replicate]
    by_cases hi : i < numWords c * 64 <;> simp [hi]
  have hbit : ∀ i, (ConnectionSlab.new T c).bitAt i =
      ((if i / 64 < numWords c then initWord c (i / 64) else 0).testBit
        (i % 64)) := by
    intro i
    unfold ConnectionSlab.bitAt
    show (((List.range (numWords c)).map (initWord c)).getD (i / 64)
      0).testBit (i % 64) = _
    rw [new_getD_word]
  refine ⟨?_, ?_, ?_, ?_, ?_, ?_, ?_⟩
  · show ((List.range (numWords c)).map (initWord c)).length = numWords c
    simp
  · show (List.replicate (numWords c * 64) (none : Option T)).length =
      numWords c * 64
    simp
  · intro w hw
    show w < 2 ^ 64
    rcases List.mem_map.mp hw with ⟨i, _, rfl⟩
    unfold initWord
    split_ifs
    · have h1 : c % 64 < 64 := Nat.mod_lt c (by norm_num)
      have h2 : (2 : Nat) ^ (c % 64) ≤ 2 ^ 64 :=
        Nat.pow_le_pow_right (by norm_num) (by omega)
      omega
    · omega
    · positivity
  · intro i hi
    have hi' : c ≤ i := hi
    rw [hbit i]
    by_cases hw : i / 64 < numWords c
    · rw [if_pos hw]
      unfold initWord
      unfold numWords at hw ⊢
      split_ifs with hcase1 hcase2
      · rw [Nat.testBit_two_pow_sub_one]
        simp only [decide_eq_false_iff_not]
        omega
      · exfalso
        rcases Decidable.not_and_iff_or_not.mp hcase1 with hn1 | hn2
        · omega
        · omega
      · exact Nat.zero_testBit _
    · rw [if_neg hw]
      exact Nat.zero_testBit _
  · intro i _
    exact hslots i
  · intro i hi
    have hi' : i < c := hi
    rw [hbit i, hslots i]
    have hw : i / 64 < numWords c := by
      unfold numWords
      omega
    rw [if_pos hw]
    unfold initWord
    unfold numWords at hw ⊢
    split_ifs with hcase1 hcase2
    · rw [Nat.testBit_two_pow_sub_one]
      simp only [decide_eq_true_eq]
      constructor
      · intro
        trivial
      · intro
        omega
    · rw [Nat.testBit_two_pow_sub_one]
      simp only [decide_eq_true_eq]
      constructor
      · intro
        trivial
      · intro
        omega
    · exfalso
      rcases Decidable.not_and_iff_or_not.mp hcase1 with hn1 | hn2 <;> omega
  · show 0 = occupiedCount (ConnectionSlab.new T c)
    unfold occupiedCount
    symm
    rw [List.countP_eq_zero]
    intro a _
    show ¬ ((ConnectionSlab.new T c).slots.getD a none).isSome = true
    rw [hslots a]
    simp

theorem applyOp_inv {T : Type} {s : ConnectionSlab T} (hs : SlabInv s)
    (hcap : s.capacity < U64) (op : SlabOp T) :
    SlabInv (s.applyOp op) ∧ (s.applyOp op).capacity = s.capacity := by
  cases op with
  | ins v =>
    have hred : s.applyOp (SlabOp.ins v) =
        (match s.insert v with
         | some r => r.2
         | none => s) := rfl
    rw [hred]
    cases hins : s.insert v with
    | none => exact ⟨hs, rfl⟩
    | some r =>
      obtain ⟨idx, s'⟩ := r
      obtain ⟨hinv, _, _, _, _, hcapeq, _, _⟩ := insert_some_inv hs hcap hins
      exact ⟨hinv, hcapeq⟩
  | rem h2 =>
    have hred : s.applyOp (SlabOp.rem h2) = (s.remove h2).2 := rfl
    rw [hred]
    obtain ⟨hinv, hcapeq, _⟩ := remove_inv h2 hs hcap
    exact ⟨hinv, hcapeq⟩

theorem applyOp_keeps_occupied {T : Type} {s : ConnectionSlab T}
    (hs : SlabInv s) (hcap : s.capacity < U64) (op : SlabOp T) (h : Nat)
    (hocc : s.slots.getD h none ≠ none) (hop : op ≠ .rem h) :
    (s.applyOp op).slots.getD h none ≠ none := by
  cases op with
  | ins v =>
    have hred : s.applyOp (SlabOp.ins v) =
        (match s.insert v with
         | some r => r.2
         | none => s) := rfl
    rw [hred]
    cases hins : s.insert v with
    | none => exact hocc
    | some r =>
      obtain ⟨idx, s'⟩ := r
      obtain ⟨_, _, _, hempty, _, _, hslots_ne, _⟩ :=
        insert_some_inv hs hcap hins
      have hne : h ≠ idx := fun he => hocc (he ▸ hempty)
      show s'.slots.getD h none ≠ none
      rw [hslots_ne h hne]
      exact hocc
  | rem h2 =>
    have hne : h ≠ h2 := fun he => hop (by rw [he])
    have hred : s.applyOp (SlabOp.rem h2) = (s.remove h2).2 := rfl
    rw [hred]
    rw [(remove_inv h2 hs hcap).2.2 h hne]
    exact hocc

theorem runOps_inv {T : Type} :
    ∀ (ops : List (SlabOp T)) (s : ConnectionSlab T), SlabInv s →
      s.capacity < U64 →
      SlabInv (s.runOps ops) ∧ (s.runOps ops).capacity = s.capacity := by
  intro ops
  induction ops with
  | nil => intro s hs _; exact ⟨hs, rfl⟩
  | cons op rest ih =>
    intro s hs hcap
    obtain ⟨h1, h2⟩ := applyOp_inv hs hcap op
    obtain ⟨h3, h4⟩ := ih (s.applyOp op) h1 (by rw [h2]; exact hcap)
    exact ⟨h3, h4.trans h2⟩

theorem runOps_keeps_occupied {T : Type} :
    ∀ (ops : List (SlabOp T)) (s : ConnectionSlab T) (h : Nat), SlabInv s →
      s.capacity < U64 → s.slots.getD h none ≠ none →
      (∀ op ∈ ops, op ≠ SlabOp.rem h) →
      (s.runOps ops).slots.getD h none ≠ none := by
  intro ops
  induction ops with
  | nil => intro s h _ _ hocc _; exact hocc
  | cons op rest ih =>
    intro s h hs hcap hocc hops
    obtain ⟨h1, h2⟩ := applyOp_inv hs hcap op
    exact ih (s.applyOp op) h h1 (by rw [h2]; exact hcap)
      (applyOp_keeps_occupied hs hcap op h hocc
        (hops op (List.mem_cons_self _ _)))
      (fun op2 hop2 => hops op2 (List.mem_cons_of_mem _ hop2))

/-- C4: for every capacity `c < 2 ^ 64` (a `usize`) and every
interleaving-free sequence of `insert` and `remove` calls run from
`ConnectionSlab::new c`: every bit of the free bitset at index ≥ c is 0;
`allocated` equals the number of occupied slots in `[0, c)`; `get`
returns the value exactly when the index is below `c` and the slot is
occupied; and no two `insert` calls return the same handle without an
intervening `remove` of it — once `insert` returns handle `h`, after any
further operations among which no `remove h` occurs, a later `insert`
cannot return `h` again. -/
theorem c4_slab_invariants (T : Type) (c : Nat) (hc : c < U64)
    (ops : List (SlabOp T)) :
    (∀ i, c ≤ i → ((ConnectionSlab.new T c).runOps ops).bitAt i = false) ∧
    ((ConnectionSlab.new T c).runOps ops).allocated =
      occupiedCount ((ConnectionSlab.new T c).runOps ops) ∧
    (∀ idx, (((ConnectionSlab.new T c).runOps ops).get idx).isSome = true ↔
      (idx < c ∧
        (((ConnectionSlab.new T c).runOps ops).slots.getD idx
          none).isSome = true)) ∧
    (∀ (v v' : T) (h : Nat) (s1 : ConnectionSlab T)
        (ops2 : List (SlabOp T)),
      ((ConnectionSlab.new T c).runOps ops).insert v = some (h, s1) →
      (∀ op ∈ ops2, op ≠ SlabOp.rem h) →
      ∀ r, (s1.runOps ops2).insert v' = some r → r.1 ≠ h) := by
  obtain ⟨hinv, hcapeq⟩ := runOps_inv ops (ConnectionSlab.new T c)
    (new_inv T c) hc
  have hcapeq' : ((ConnectionSlab.new T c).runOps ops).capacity = c := hcapeq
  refine ⟨?_, hinv.alloc_eq, ?_, ?_⟩
  · intro i hi
    exact hinv.beyond_zero i (by rw [hcapeq']; exact hi)
  · intro idx
    unfold ConnectionSlab.get
    by_cases hidx : ((ConnectionSlab.new T c).runOps ops).capacity ≤ idx
    · rw [if_pos hidx]
      have : ¬ idx < c := by rw [← hcapeq']; omega
      simp [this]
    · rw [if_neg hidx]
      have : idx < c := by rw [← hcapeq']; omega
      simp [this]
  · intro v v' h s1 ops2 hins hno r hins2
    have hcap' : ((ConnectionSlab.new T c).runOps ops).capacity < U64 := by
      rw [hcapeq']; exact hc
    obtain ⟨hinv1, _, _, _, hocc1, hcap1, _, _⟩ :=
      insert_some_inv hinv hcap' hins
    have hocc : s1.slots.getD h none ≠ none := by
      rw [hocc1]; simp
    have hcap1' : s1.capacity < U64 := by
      rw [hcap1]; exact hcap'
    have hkept := runOps_keeps_occupied ops2 s1 h hinv1 hcap1' hocc hno
    obtain ⟨hinv2, hcap2⟩ := runOps_inv ops2 s1 hinv1 hcap1'
    have hcap2' : (s1.runOps ops2).capacity < U64 := by
      rw [hcap2]; exact hcap1'
    obtain ⟨r1, r2⟩ := r
    obtain ⟨_, _, _, hempty2, _, _, _, _⟩ :=
      insert_some_inv hinv2 hcap2' hins2
    intro hcontra
    apply hkept
    rw [← show r1 = h from hcontra]
    exact hempty2

/-- C4 witness: a slab of capacity 2 after one insert — the beyond-
capacity bit 2 is clear, `allocated` matches the occupied count, `get 0`
agrees with occupancy, and a second insert cannot return handle 0 again
while slot 0 is still occupied. -/
theorem c4_slab_invariants_witness :
    ((ConnectionSlab.new Nat 2).runOps [SlabOp.ins 5]).allocated =
      occupiedCount ((ConnectionSlab.new Nat 2).runOps [SlabOp.ins 5]) ∧
    ((ConnectionSlab.new Nat 2).runOps [SlabOp.ins 5]).bitAt 2 = false ∧
    ((((ConnectionSlab.new Nat 2).runOps [SlabOp.ins 5]).get 0).isSome =
      true ↔ (0 < 2 ∧
        ((((ConnectionSlab.new Nat 2).runOps
          [SlabOp.ins 5]).slots.getD 0 none).isSome = true))) ∧
    (((ConnectionSlab.new Nat 2).applyOp (SlabOp.ins 5)).insert 7).map
      Prod.fst ≠ some 0 := by
  have h := c4_slab_invariants Nat 2 (by decide) [SlabOp.ins 5]
  have h0 := c4_slab_invariants Nat 2 (by decide) []
  refine ⟨h.2.1, h.1 2 (le_refl 2), h.2.2.1 0, ?_⟩
  have hfst : ((ConnectionSlab.new Nat 2).insert 5).map Prod.fst =
      some 0 := by decide
  cases hins : (ConnectionSlab.new Nat 2).insert 5 with
  | none => rw [hins] at hfst; cases hfst
  | some p =>
    obtain ⟨idx, s1⟩ := p
    have hidx : idx = 0 := by
      rw [hins] at hfst
      exact Option.some.inj hfst
    subst hidx
    have happly : (ConnectionSlab.new Nat 2).applyOp (SlabOp.ins 5) =
        s1 := by
      have hred : (ConnectionSlab.new Nat 2).applyOp (SlabOp.ins 5) =
          (match (ConnectionSlab.new Nat 2).insert 5 with
           | some r => r.2
           | none => ConnectionSlab.new Nat 2) := rfl
      rw [hred, hins]
    rw [happly]
    have hfresh := h0.2.2.2 5 7 0 s1 [] hins
      (fun op hop => absurd hop (List.not_mem_nil op))
    intro hcontra
    cases hins2 : s1.insert 7 with
    | none => rw [hins2] at hcontra; cases hcontra
    | some r =>
      apply hfresh r hins2
      rw [hins2] at hcontra
      exact Option.some.inj hcontra

theorem countRegister_append (l1 l2 : List MgrOp) :
    countRegister (l1 ++ l2) = countRegister l1 + countRegister l2 := by
  unfold countRegister
  rw [List.filter_append, List.length_append]

theorem countRegister_le_length (l : List MgrOp) :
    countRegister l ≤ l.length :=
  List.length_filter_le _ _

theorem applyOp_next_id (st : ConnectionManager × Metrics) (op : MgrOp) :
    (ConnectionManager.applyOp st op).1.next_id =
      (match op with
       | .register _ => (st.1.next_id + 1) % U64
       | .unregister _ => st.1.next_id) := by
  cases op with
  | register addr =>
    show ((st.1.register addr st.2).2.1).next_id = (st.1.next_id + 1) % U64
    simp only [ConnectionManager.register]
    cases hi : st.1.connections.insert ⟨st.1.next_id, addr⟩ with
    | none => rfl
    | some p =>
      obtain ⟨handle, slab'⟩ := p
      rfl
  | unregister id =>
    show (st.1.unregister id st.2).1.next_id = st.1.next_id
    unfold ConnectionManager.unregister
    cases hl : st.1.id_to_handle.lookup id with
    | none => rfl
    | some handle =>
      simp only []
      cases hr : st.1.connections.remove handle with
      | mk o slab' =>
        cases o <;> rfl

theorem runOps_next_id (ops : List MgrOp) :
    ∀ st : ConnectionManager × Metrics, st.1.next_id < U64 →
      (ConnectionManager.runOps st ops).1.next_id =
        (st.1.next_id + countRegister ops) % U64 := by
  induction ops with
  | nil =>
    intro st h
    show st.1.next_id = (st.1.next_id + countRegister []) % U64
    rw [show countRegister [] = 0 from rfl, Nat.add_zero,
      Nat.mod_eq_of_lt h]
  | cons op rest ih =>
    intro st h
    show (ConnectionManager.runOps (ConnectionManager.applyOp st op)
      rest).1.next_id = _
    cases op with
    | register addr =>
      have hn := applyOp_next_id st (.register addr)
      have hlt : (ConnectionManager.applyOp st
          (.register addr)).1.next_id < U64 := by
        rw [hn]
        exact Nat.mod_lt _ (by norm_num [U64])
      rw [ih _ hlt, hn, Nat.mod_add_mod,
        show countRegister (MgrOp.register addr :: rest) =
          countRegister rest + 1 from by
            simp [countRegister, List.filter_cons]]
      congr 1
      omega
    | unregister id =>
      have hn := applyOp_next_id st (.unregister id)
      rw [ih _ (by rw [hn]; exact h), hn,
        show countRegister (MgrOp.unregister id :: rest) =
          countRegister rest from by
            simp [countRegister, List.filter_cons]]

theorem registerOut_val (c : Nat) (ops : List MgrOp) (k : Nat) (a : Nat)
    (h : registerOutAt c ops k = some a) :
    (∃ addr, ops.getD k (.unregister 0) = .register addr) ∧
    a = (ConnectionManager.runOps (ConnectionManager.new c, Metrics.new)
      (ops.take k)).1.next_id := by
  unfold registerOutAt at h
  cases hop : ops.getD k (.unregister 0) with
  | unregister id =>
    rw [hop] at h
    cases h
  | register addr =>
    rw [hop] at h
    refine ⟨⟨addr, rfl⟩, ?_⟩
    revert h
    simp only [ConnectionManager.register]
    cases hi : (ConnectionManager.runOps (ConnectionManager.new c,
        Metrics.new) (ops.take k)).1.connections.insert
        ⟨(ConnectionManager.runOps (ConnectionManager.new c, Metrics.new)
          (ops.take k)).1.next_id, addr⟩ with
    | none =>
      intro h
      cases h
    | some p =>
      obtain ⟨handle, slab'⟩ := p
      intro h
      exact (Option.some.inj h).symm

theorem countRegister_take_succ_of_register (ops : List MgrOp) (i : Nat)
    (hi : i < ops.length) (addr : String)
    (hop : ops.getD i (.unregister 0) = .register addr) :
    countRegister (ops.take (i + 1)) = countRegister (ops.take i) + 1 := by
  have hx : ops[i]? = some ops[i] := List.getElem?_eq_getElem hi
  rw [List.getD_eq_getElem?_getD, hx] at hop
  simp only [Option.getD_some] at hop
  rw [List.take_succ, countRegister_append, hx, hop]
  rfl

theorem countRegister_take_mono (ops : List MgrOp) (i j : Nat)
    (hij : i ≤ j) :
    countRegister (ops.take i) ≤ countRegister (ops.take j) := by
  rw [show j = i + (j - i) from by omega, List.take_add,
    countRegister_append]
  omega

/-- C9: ids issued by successful `register` calls on one
`ConnectionManager` are strictly increasing — realistically bounded call
sequences (at most `2 ^ 64 - 1` calls, so the wrapping `fetch_add` never
wraps) — and a successful `register` preceded by no other `register` call
returns id 1, so the sequence issued in a process starts at 1. -/
theorem c9_register_ids_increase (c : Nat) (ops : List MgrOp)
    (i j a b : Nat) (hij : i < j) (hjlen : j < ops.length)
    (hlen : ops.length ≤ U64 - 1)
    (ha : registerOutAt c ops i = some a)
    (hb : registerOutAt c ops j = some b) :
    a < b ∧
    (∀ k a0, registerOutAt c ops k = some a0 →
      countRegister (ops.take k) = 0 → a0 = 1) := by
  have hU : 1 < U64 := by norm_num [U64]
  have hnew1 : (ConnectionManager.new c, Metrics.new).1.next_id = 1 := rfl
  have hnid : ∀ k, (ConnectionManager.runOps (ConnectionManager.new c,
      Metrics.new) (ops.take k)).1.next_id =
      (1 + countRegister (ops.take k)) % U64 := by
    intro k
    rw [runOps_next_id (ops.take k) _ (by rw [hnew1]; omega), hnew1]
  obtain ⟨⟨addri, hopi⟩, hai⟩ := registerOut_val c ops i a ha
  obtain ⟨⟨addrj, hopj⟩, hbj⟩ := registerOut_val c ops j b hb
  have hcnti : countRegister (ops.take i) ≤ i :=
    le_trans (countRegister_le_length _) (by rw [List.length_take]; omega)
  have hcntj : countRegister (ops.take j) ≤ j :=
    le_trans (countRegister_le_length _) (by rw [List.length_take]; omega)
  have hstep := countRegister_take_succ_of_register ops i (by omega)
    addri hopi
  have hmono := countRegister_take_mono ops (i + 1) j (by omega)
  have hamod : a = 1 + countRegister (ops.take i) := by
    rw [hai, hnid i, Nat.mod_eq_of_lt (by omega)]
  have hbmod : b = 1 + countRegister (ops.take j) := by
    rw [hbj, hnid j, Nat.mod_eq_of_lt (by omega)]
  constructor
  · omega
  · intro k a0 hk hcnt0
    obtain ⟨⟨addrk, _⟩, hak⟩ := registerOut_val c ops k a0 hk
    rw [hak, hnid k, hcnt0, Nat.mod_eq_of_lt (by omega)]

/-- C9 witness: on a manager with 4 slots, two consecutive registers
return ids 1 and 2, and 1 < 2 by the theorem. -/
theorem c9_register_ids_increase_witness :
    registerOutAt 4 [MgrOp.register ("a"), MgrOp.register ("b")] 0 =
      some 1 ∧
    registerOutAt 4 [MgrOp.register ("a"), MgrOp.register ("b")] 1 =
      some 2 ∧
    (1 : Nat) < 2 := by
  have hga : registerOutAt 4 [MgrOp.register ("a"), MgrOp.register ("b")]
      0 = some 1 := by decide
  have hgb : registerOutAt 4 [MgrOp.register ("a"), MgrOp.register ("b")]
      1 = some 2 := by decide
  refine ⟨hga, hgb, ?_⟩
  exact (c9_register_ids_increase 4
    [MgrOp.register ("a"), MgrOp.register ("b")] 0 1 1 2 (by norm_num)
    (by norm_num) (by norm_num [U64]) hga hgb).1
